import Mathlib

/-!
Verification of the local retrieval-augmented memory engine of the
chat-landing-page repository, via a shallow embedding of its TypeScript and
JavaScript sources into Lean.

Components modelled (each definition is translated from the source file
named in its doc comment):

* token estimation and the Active Memory Window (`src/lib/token-utils.ts`,
  `src/services/memory-store.ts`);
* the ingestion text segmenter with sentence-boundary search and
  deduplication (training module, `chunkText` and helpers);
* the vector worker: embedding-blob validation, ingestion row processing,
  IndexedDB rehydration, vec0 search, and the memoised SQLite / embedder
  initialisation (`vector-db.worker.js`);
* the structured table with its `UNIQUE(userId, sourceName, chunkIndex)`
  constraint and `INSERT OR IGNORE` ingestion;
* the Session Orchestrator `ChatSession.sendMessage`
  (`src/services/chat-session.ts`).

Modelling conventions: JavaScript strings are `String` where only lengths
matter and `List Char` where character-level scanning is needed (inputs used
in concrete theorems are ASCII, so UTF-16 code-unit counts agree with
code-point counts); byte buffers are `List UInt8`; promises settle with an
outcome supplied as an explicit parameter; `Math.max(0, e - o)` on
non-negative integers is truncated subtraction on `Nat`.
-/

namespace ChatLanding

/-! ### Token utilities (`src/lib/token-utils.ts`) -/

/-- Source: `CHARS_PER_TOKEN = 3.5`; `estimateTokens` returns `0` for a falsy
string and otherwise `Math.ceil(text.length / 3.5)`.  For a natural `L > 0`,
`ceil(L / 3.5) = ceil(2 L / 7) = (2 L + 6) / 7` in natural division. -/
def estimateTokens (text : String) : Nat :=
  if text.length = 0 then 0 else (2 * text.length + 6) / 7

/-- Source: `estimateMessageTokens` adds a fixed overhead of 4 tokens for the
role and message structure. -/
def estimateMessageTokens (content : String) : Nat :=
  estimateTokens content + 4

/-- Source: `TOKEN_LIMITS.ACTIVE_MEMORY = 800_000`. -/
def ACTIVE_MEMORY : Nat := 800000

/-- Eviction hysteresis threshold.  The source compares
`newTokenTotal <= TOKEN_LIMITS.ACTIVE_MEMORY * 0.9`; in IEEE-754 double
arithmetic `800000 * 0.9` rounds to exactly `720000`, and `newTokenTotal` is
an integer, so the comparison is `n ≤ 720000`. -/
def ACTIVE_MEMORY_HYSTERESIS : Nat := 720000

/-! ### Active Memory Window (`src/services/memory-store.ts`)

A `ConversationMessage` carries `id`, `role`, `content`, `createdAt`,
`tokenCount`, `sessionId`.  The random `id` and the `createdAt` timestamp are
modelled implicitly: the store keeps messages as a list in creation order
(the `byCreatedAt` index of the IndexedDB store), oldest first.  The
`tokenTotal` aggregate of the meta record is carried alongside. -/

structure ConversationMessage where
  role : String
  content : String
  tokenCount : Nat
  sessionId : String
deriving DecidableEq

structure MemState where
  /-- All stored messages in creation order (oldest first), across sessions. -/
  messages : List ConversationMessage
  /-- The `tokenTotal` field of the meta record. -/
  tokenTotal : Nat
deriving DecidableEq

def MemState.empty : MemState := ⟨[], 0⟩

/-- Source: the eviction loop inside `addMessage`:
`for (const oldMsg of allMessages) { if (newTokenTotal <= LIMIT*0.9) break;
evicted.push(oldMsg); newTokenTotal -= oldMsg.tokenCount; delete(oldMsg) }`.
Returns `(remaining, evicted, finalTotal)`. -/
def evictLoop :
    List ConversationMessage → Nat →
      List ConversationMessage × List ConversationMessage × Nat
  | [], total => ([], [], total)
  | m :: rest, total =>
    if total ≤ ACTIVE_MEMORY_HYSTERESIS then (m :: rest, [], total)
    else
      let r := evictLoop rest (total - m.tokenCount)
      (r.1, m :: r.2.1, r.2.2)

/-- Source: `addMessage(role, content, sessionId)`.  Computes the new
message's token count, evicts oldest-first while the running total exceeds
the ceiling (down to the 90% hysteresis threshold), appends the new message,
and records the new total in the meta record.  Returns the new state, the
stored message, and the evicted messages. -/
def addMessage (st : MemState) (role content sessionId : String) :
    MemState × ConversationMessage × List ConversationMessage :=
  let msg : ConversationMessage :=
    ⟨role, content, estimateMessageTokens content, sessionId⟩
  let newTotal := st.tokenTotal + msg.tokenCount
  let r :=
    if ACTIVE_MEMORY < newTotal then evictLoop st.messages newTotal
    else (st.messages, [], newTotal)
  (⟨r.1 ++ [msg], r.2.2⟩, msg, r.2.1)

/-- Source: `getMessages(sessionId?)` — all messages, filtered through the
`bySessionId` index when a session id is given.  (The IndexedDB index orders
equal-session records by primary key; ordering is irrelevant to the scoping
properties proved below, so creation order is kept.) -/
def getMessages (st : MemState) (sessionId : Option String) :
    List ConversationMessage :=
  match sessionId with
  | some sid => st.messages.filter (fun m => m.sessionId == sid)
  | none => st.messages

/-- Source: the newest-to-oldest accumulation loop of `getRecentMessages`:
`if (tokenCount + msg.tokenCount > maxTokens) break; result.unshift(msg)`.
Input is the message list reversed (newest first); output is newest first. -/
def takeRecentAux :
    List ConversationMessage → Nat → Nat → List ConversationMessage
  | [], _, _ => []
  | m :: rest, maxTokens, acc =>
    if maxTokens < acc + m.tokenCount then []
    else m :: takeRecentAux rest maxTokens (acc + m.tokenCount)

/-- Source: `getRecentMessages(maxTokens, sessionId?)` — walk messages
newest-to-oldest accumulating token cost, return in chronological order. -/
def getRecentMessages (st : MemState) (maxTokens : Nat)
    (sessionId : Option String) : List ConversationMessage :=
  (takeRecentAux (getMessages st sessionId).reverse maxTokens 0).reverse

/-- Fold a list of `(role, content, sessionId)` calls through `addMessage`
starting from the empty store. -/
def runAdds (calls : List (String × String × String)) : MemState :=
  calls.foldl (fun st c => (addMessage st c.1 c.2.1 c.2.2).1) MemState.empty

/-- The meta `tokenTotal` agrees with the sum of the stored messages' token
counts (true of every state reachable through `addMessage` from the empty
store). -/
def memInvariant (st : MemState) : Prop :=
  st.tokenTotal = (st.messages.map (fun m => m.tokenCount)).sum

theorem evictLoop_append (msgs : List ConversationMessage) (total : Nat) :
    (evictLoop msgs total).2.1 ++ (evictLoop msgs total).1 = msgs := by
  induction msgs generalizing total with
  | nil => simp [evictLoop]
  | cons m rest ih =>
    by_cases h : total ≤ ACTIVE_MEMORY_HYSTERESIS
    · simp [evictLoop, h]
    · simp [evictLoop, h, ih]

theorem evictLoop_total (msgs : List ConversationMessage) (total : Nat)
    (h : ((msgs.map (fun m => m.tokenCount)).sum ≤ total)) :
    (evictLoop msgs total).2.2 +
      (((evictLoop msgs total).2.1.map (fun m => m.tokenCount)).sum) = total := by
  induction msgs generalizing total with
  | nil => simp [evictLoop]
  | cons m rest ih =>
    by_cases hb : total ≤ ACTIVE_MEMORY_HYSTERESIS
    · simp [evictLoop, hb]
    · simp only [List.map_cons, List.sum_cons] at h
      have h' : (rest.map (fun m => m.tokenCount)).sum ≤ total - m.tokenCount := by
        omega
      have := ih (total - m.tokenCount) h'
      simp only [evictLoop, if_neg hb, List.map_cons, List.sum_cons]
      omega

theorem evictLoop_stops (msgs : List ConversationMessage) (total : Nat) :
    (evictLoop msgs total).1 = [] ∨
      (evictLoop msgs total).2.2 ≤ ACTIVE_MEMORY_HYSTERESIS := by
  induction msgs generalizing total with
  | nil => simp [evictLoop]
  | cons m rest ih =>
    by_cases hb : total ≤ ACTIVE_MEMORY_HYSTERESIS
    · simp [evictLoop, hb]
    · simpa [evictLoop, hb] using ih (total - m.tokenCount)

theorem addMessage_messages (st : MemState) (role content sessionId : String) :
    st.messages = (addMessage st role content sessionId).2.2 ++
        ((addMessage st role content sessionId).1.messages).dropLast ∧
    (addMessage st role content sessionId).1.messages =
      ((addMessage st role content sessionId).1.messages).dropLast ++
        [(addMessage st role content sessionId).2.1] := by
  unfold addMessage
  by_cases h : ACTIVE_MEMORY < st.tokenTotal + estimateMessageTokens content
  · simp only [if_pos h]
    refine ⟨?_, by simp⟩
    simpa using (evictLoop_append st.messages
      (st.tokenTotal + estimateMessageTokens content)).symm
  · simp [if_neg h]

theorem addMessage_invariant (st : MemState) (role content sessionId : String)
    (hinv : memInvariant st) :
    memInvariant (addMessage st role content sessionId).1 := by
  unfold memInvariant at hinv ⊢
  unfold addMessage
  by_cases h : ACTIVE_MEMORY < st.tokenTotal + estimateMessageTokens content
  · simp only [if_pos h]
    have happ := evictLoop_append st.messages
      (st.tokenTotal + estimateMessageTokens content)
    have htot := evictLoop_total st.messages
      (st.tokenTotal + estimateMessageTokens content) (by omega)
    have hsum : ((evictLoop st.messages
          (st.tokenTotal + estimateMessageTokens content)).2.1.map
            (fun m => m.tokenCount)).sum +
        (((evictLoop st.messages
          (st.tokenTotal + estimateMessageTokens content)).1.map
            (fun m => m.tokenCount)).sum) =
        (st.messages.map (fun m => m.tokenCount)).sum := by
      conv_rhs => rw [← happ]
      simp
    simp only [List.map_append, List.sum_append, List.map_cons, List.sum_cons,
      List.map_nil, List.sum_nil]
    omega
  · simp only [if_neg h]
    simp [hinv]

theorem runAdds_invariant (calls : List (String × String × String)) :
    memInvariant (runAdds calls) := by
  suffices h : ∀ st, memInvariant st →
      memInvariant (calls.foldl (fun st c => (addMessage st c.1 c.2.1 c.2.2).1) st) by
    exact h MemState.empty (by simp [memInvariant, MemState.empty])
  induction calls with
  | nil => intro st hst; simpa using hst
  | cons c rest ih =>
    intro st hst
    exact ih _ (addMessage_invariant st c.1 c.2.1 c.2.2 hst)

/-- Single-call bound: if the state satisfies the aggregate invariant and the
new message's token count is at most the hysteresis threshold, the post-call
total is at most the ceiling, and at most the hysteresis threshold whenever
the eviction branch was entered. -/
theorem addMessage_bounded (st : MemState) (role content sessionId : String)
    (hinv : memInvariant st)
    (hnew : estimateMessageTokens content ≤ ACTIVE_MEMORY_HYSTERESIS) :
    (addMessage st role content sessionId).1.tokenTotal ≤ ACTIVE_MEMORY ∧
    ((addMessage st role content sessionId).2.2 ≠ [] →
      (addMessage st role content sessionId).1.tokenTotal ≤
        ACTIVE_MEMORY_HYSTERESIS) := by
  unfold addMessage
  by_cases h : ACTIVE_MEMORY < st.tokenTotal + estimateMessageTokens content
  · simp only [if_pos h]
    have happ := evictLoop_append st.messages
      (st.tokenTotal + estimateMessageTokens content)
    have htot := evictLoop_total st.messages
      (st.tokenTotal + estimateMessageTokens content)
      (by unfold memInvariant at hinv; omega)
    have hstop := evictLoop_stops st.messages
      (st.tokenTotal + estimateMessageTokens content)
    rcases hstop with hrem | hle
    · -- every old message was evicted; the remaining total is the new
      -- message's own token count
      have : ((evictLoop st.messages
            (st.tokenTotal + estimateMessageTokens content)).2.1.map
              (fun m => m.tokenCount)).sum =
          (st.messages.map (fun m => m.tokenCount)).sum := by
        conv_rhs => rw [← happ]
        simp [hrem]
      unfold memInvariant at hinv
      constructor
      · unfold ACTIVE_MEMORY ACTIVE_MEMORY_HYSTERESIS at *
        omega
      · intro _
        omega
    · constructor
      · unfold ACTIVE_MEMORY ACTIVE_MEMORY_HYSTERESIS at *
        omega
      · intro _
        simpa using hle
  · simp only [if_neg h]
    exact ⟨by simpa using Nat.le_of_not_lt h, by simp⟩

theorem takeRecentAux_subset (l : List ConversationMessage) (maxT acc : Nat)
    (m : ConversationMessage) (hm : m ∈ takeRecentAux l maxT acc) : m ∈ l := by
  induction l generalizing acc with
  | nil => simp [takeRecentAux] at hm
  | cons x rest ih =>
    by_cases h : maxT < acc + x.tokenCount
    · simp [takeRecentAux, h] at hm
    · simp only [takeRecentAux, if_neg h, List.mem_cons] at hm
      rcases hm with h1 | h2
      · simp [h1]
      · exact List.mem_cons_of_mem x (ih _ h2)

/-- Claim C1, counterexample: a single `addMessage` call with a
3,000,000-character content on the empty window leaves
`tokenTotal = 857147 > 800000`; the eviction loop has nothing to evict, so
the recorded total exceeds the ceiling after the call completes, refuting
the claim as stated. -/
theorem c1_tokenTotal_ceiling_counterexample :
    ACTIVE_MEMORY <
      ((addMessage MemState.empty "user"
          (String.mk (List.replicate 3000000 'a')) "default").1).tokenTotal ∧
    ((addMessage MemState.empty "user"
        (String.mk (List.replicate 3000000 'a')) "default").1).tokenTotal
      = 857147 := by
  have key : ∀ content : String, content.length = 3000000 →
      (addMessage MemState.empty "user" content "default").1.tokenTotal
        = 857147 := by
    intro content hc
    simp only [addMessage, MemState.empty, estimateMessageTokens,
      estimateTokens, hc]
    norm_num [evictLoop, ACTIVE_MEMORY, ACTIVE_MEMORY_HYSTERESIS]
  have hlen : (String.mk (List.replicate 3000000 'a')).length = 3000000 := by
    show (List.replicate 3000000 'a').length = 3000000
    exact List.length_replicate 3000000 'a'
  rw [key _ hlen]
  exact ⟨by norm_num [ACTIVE_MEMORY], rfl⟩

/-- Claim C1, amended: for every sequence of `addMessage` calls in which the
newly added turn's estimated token count is at most the 90% hysteresis
threshold (720000 tokens), after the call completes `tokenTotal ≤ 800000`;
whenever at least one turn was evicted, `tokenTotal ≤ 720000`; the evicted
turns are a contiguous prefix of the stored turns in creation order and are
exactly the turns removed from the window (all of them are returned to the
caller).  The claim as frozen omits the boundedness hypothesis; a single
oversized turn violates it (see the counterexample). -/
theorem c1_eviction_invariant_amended
    (calls : List (String × String × String)) (role content sessionId : String)
    (hnew : estimateMessageTokens content ≤ ACTIVE_MEMORY_HYSTERESIS) :
    (addMessage (runAdds calls) role content sessionId).1.tokenTotal
        ≤ ACTIVE_MEMORY ∧
    ((addMessage (runAdds calls) role content sessionId).2.2 ≠ [] →
      (addMessage (runAdds calls) role content sessionId).1.tokenTotal
        ≤ ACTIVE_MEMORY_HYSTERESIS) ∧
    (runAdds calls).messages =
      (addMessage (runAdds calls) role content sessionId).2.2 ++
        ((addMessage (runAdds calls) role content sessionId).1.messages).dropLast ∧
    (addMessage (runAdds calls) role content sessionId).1.messages =
      ((addMessage (runAdds calls) role content sessionId).1.messages).dropLast ++
        [(addMessage (runAdds calls) role content sessionId).2.1] := by
  have hinv := runAdds_invariant calls
  have hb := addMessage_bounded (runAdds calls) role content sessionId hinv hnew
  have hmsg := addMessage_messages (runAdds calls) role content sessionId
  exact ⟨hb.1, hb.2, hmsg.1, hmsg.2⟩

theorem c1_eviction_invariant_amended_witness :
    estimateMessageTokens "hi" ≤ ACTIVE_MEMORY_HYSTERESIS ∧
    (addMessage (runAdds []) "user" "hi" "s").1.tokenTotal ≤ ACTIVE_MEMORY :=
  ⟨by decide, (c1_eviction_invariant_amended [] "user" "hi" "s" (by decide)).1⟩

/-- Claim C9, counterexample: adding a large turn to session `"b"` evicts the
turn owned by session `"a"` — eviction in `addMessage` walks the global
`byCreatedAt` index and is not scoped by `sessionId`, refuting the claim that
eviction removes only turns belonging to the adding session. -/
theorem c9_eviction_cross_session_counterexample :
    (((addMessage ((addMessage MemState.empty "user" "hi" "a").1) "user"
        (String.mk (List.replicate 2800000 'b')) "b").2.2).map
          (fun m => m.sessionId)) = ["a"] := by
  have key : ∀ c2 : String, c2.length = 2800000 →
      (((addMessage (⟨[⟨"user", "hi", 5, "a"⟩], 5⟩ : MemState) "user"
          c2 "b").2.2).map (fun m => m.sessionId)) = ["a"] := by
    intro c2 hc
    simp only [addMessage, estimateMessageTokens, estimateTokens, hc]
    norm_num [evictLoop, ACTIVE_MEMORY, ACTIVE_MEMORY_HYSTERESIS]
  have hlen : (String.mk (List.replicate 2800000 'b')).length = 2800000 := by
    show (List.replicate 2800000 'b').length = 2800000
    exact List.length_replicate 2800000 'b'
  have h5 : estimateMessageTokens "hi" = 5 := by decide
  have hst1 : (addMessage MemState.empty "user" "hi" "a").1 =
      ⟨[⟨"user", "hi", 5, "a"⟩], 5⟩ := by
    norm_num [addMessage, MemState.empty, h5, ACTIVE_MEMORY]
  rw [hst1]
  exact key _ hlen

/-- Claim C9, amended: reads through `getRecentMessages` with a session id
return only that session's turns, but eviction in `addMessage` is global: it
removes a contiguous prefix of the creation-order list of all stored turns,
regardless of the session that triggered the addition. -/
theorem c9_session_scoping_amended :
    (∀ (st : MemState) (sid : String) (m : ConversationMessage),
        m ∈ getMessages st (some sid) → m.sessionId = sid) ∧
    (∀ (st : MemState) (maxT : Nat) (sid : String) (m : ConversationMessage),
        m ∈ getRecentMessages st maxT (some sid) → m.sessionId = sid) ∧
    (∀ (st : MemState) (role content sid : String),
        st.messages = (addMessage st role content sid).2.2 ++
          ((addMessage st role content sid).1.messages).dropLast) := by
  refine ⟨?_, ?_, ?_⟩
  · intro st sid m hm
    unfold getMessages at hm
    rw [List.mem_filter] at hm
    exact eq_of_beq hm.2
  · intro st maxT sid m hm
    unfold getRecentMessages at hm
    rw [List.mem_reverse] at hm
    have hmem := takeRecentAux_subset _ _ _ _ hm
    rw [List.mem_reverse] at hmem
    unfold getMessages at hmem
    rw [List.mem_filter] at hmem
    exact eq_of_beq hmem.2
  · intro st role content sid
    exact (addMessage_messages st role content sid).1

theorem c9_session_scoping_amended_witness :
    (⟨"user", "hi", 5, "s"⟩ : ConversationMessage).sessionId = "s" :=
  c9_session_scoping_amended.2.1
    ((addMessage MemState.empty "user" "hi" "s").1) 100 "s"
    ⟨"user", "hi", 5, "s"⟩ (by decide)

/-! ### Text Segmenter (training module)

The ingestion segmenter `chunkText` and its helpers `normalizeText`,
`findSentenceBoundary` and `normalizeForDedup`.  Strings are `List Char`
here because the functions scan characters.  The JavaScript `\s` class is
modelled by the whitespace code points below (all inputs used in concrete
theorems are ASCII). -/

/-- Characters matched by `[\t ]` in `normalizeText`. -/
def isTabOrSpace (c : Char) : Bool := c = '\t' || c = ' '

/-- Characters matched by the JavaScript `\s` class (ASCII whitespace plus
NBSP; further Unicode space code points never occur in the inputs of the
theorems below). -/
def isJsSpace (c : Char) : Bool :=
  c = ' ' || c = '\t' || c = '\n' || c = '\r' || c = '\x0b' || c = '\x0c' ||
    c = ' '

/-- Source: `.replace(/\r\n/g, "\n")`. -/
def replaceCRLF : List Char → List Char
  | '\r' :: '\n' :: rest => '\n' :: replaceCRLF rest
  | c :: rest => c :: replaceCRLF rest
  | [] => []

/-- Source: `.replace(/[\t ]+/g, " ")` — each maximal run of tabs/spaces
becomes a single space.  `prevWs` records whether the previous character
belonged to the current run. -/
def collapseTabSpace (prevWs : Bool) : List Char → List Char
  | [] => []
  | c :: rest =>
    if isTabOrSpace c then
      if prevWs then collapseTabSpace true rest
      else ' ' :: collapseTabSpace true rest
    else c :: collapseTabSpace false rest

/-- Source: `.replace(/\n{3,}/g, "\n\n")` — every maximal run of three or
more newlines becomes two.  `run` counts the newlines already emitted from
the current run. -/
def collapseNewlines (run : Nat) : List Char → List Char
  | [] => []
  | c :: rest =>
    if c = '\n' then
      if 2 ≤ run then collapseNewlines (run + 1) rest
      else '\n' :: collapseNewlines (run + 1) rest
    else c :: collapseNewlines 0 rest

/-- Source: `String.prototype.trim()` — strip whitespace from both ends. -/
def trimL (l : List Char) : List Char :=
  ((l.dropWhile isJsSpace).reverse.dropWhile isJsSpace).reverse

/-- Source: `normalizeText` — normalize line endings, collapse tab/space
runs, limit newline runs, trim. -/
def normalizeTextL (text : List Char) : List Char :=
  trimL (collapseNewlines 0 (collapseTabSpace false (replaceCRLF text)))

/-- Characters matched by `[.!?]|\n` in `findSentenceBoundary`. -/
def isSentencePunct (c : Char) : Bool := c = '.' || c = '!' || c = '?'

/-- Matching of the regex fragment `.*[.!?]` at the head of `rest` (the `.`
class excludes newlines): true iff a sentence punctuation character occurs
before the first newline. -/
def punctBeforeNewline : List Char → Bool
  | [] => false
  | c :: rest =>
    if isSentencePunct c then true
    else if c = '\n' then false
    else punctBeforeNewline rest

/-- The negative lookahead `(?!.*[.!?]|\n)` of `findSentenceBoundary`,
evaluated against the text following the two matched characters. -/
def lookaheadHolds (rest : List Char) : Bool :=
  !(punctBeforeNewline rest || rest.headD ' ' = '\n')

/-- First match of `([.!?]|\n)\s(?!.*[.!?]|\n)` in the window: returns the
two matched characters (the regex result `match[0]`). -/
def findMatchPair : List Char → Option (Char × Char)
  | c0 :: c1 :: rest =>
    if (isSentencePunct c0 || c0 = '\n') && isJsSpace c1 && lookaheadHolds rest
    then some (c0, c1)
    else findMatchPair (c1 :: rest)
  | _ => none

/-- Source: `window.lastIndexOf(match[0])` for a two-character needle — the
largest index at which the pair occurs, scanning with a running index. -/
def lastIdx2 (c0 c1 : Char) : List Char → Nat → Option Nat
  | a :: b :: rest, i =>
    match lastIdx2 c0 c1 (b :: rest) (i + 1) with
    | some j => some j
    | none => if a = c0 && b = c1 then some i else none
  | _, _ => none

/-- Source: `findSentenceBoundary(text, start, end)` — search the last 120
characters of the window for the final sentence-ending punctuation or
newline followed by whitespace; use it only when it lies more than 100
characters past `start`, else keep `end`. -/
def findSentenceBoundaryL (text : List Char) (start end_ : Nat) : Nat :=
  let windowStart := max start (end_ - 120)
  let window := (text.drop windowStart).take (end_ - windowStart)
  match findMatchPair window with
  | none => end_
  | some (c0, c1) =>
    let idx := (lastIdx2 c0 c1 window 0).getD 0
    let boundary := windowStart + idx + 2
    if start + 100 < boundary then boundary else end_

/-- Source: `normalizeForDedup` — collapse all whitespace runs to single
spaces, trim, lowercase. -/
def collapseAllWs (prevWs : Bool) : List Char → List Char
  | [] => []
  | c :: rest =>
    if isJsSpace c then
      if prevWs then collapseAllWs true rest
      else ' ' :: collapseAllWs true rest
    else c :: collapseAllWs false rest

def normalizeForDedupL (l : List Char) : List Char :=
  (trimL (collapseAllWs false l)).map Char.toLower

/-- Source: `MAX_CHUNKS = 500`. -/
def MAX_CHUNKS : Nat := 500

/-- Source: `DEDUP_MIN_LENGTH = 80`. -/
def DEDUP_MIN_LENGTH : Nat := 80

/-- The body of `chunkText`'s per-iteration push: an empty slice is dropped;
a slice of at least `DEDUP_MIN_LENGTH` characters is pushed only when its
normalized form has not been seen (recording it); shorter slices bypass
deduplication.  Returns the updated `(chunks, seen)`. -/
def dedupPush (chunks : List (List Char)) (seen : List (List Char))
    (slice : List Char) : List (List Char) × List (List Char) :=
  if slice.isEmpty then (chunks, seen)
  else if DEDUP_MIN_LENGTH ≤ slice.length then
    let key := normalizeForDedupL slice
    if key ∈ seen then (chunks, seen) else (chunks ++ [slice], key :: seen)
  else (chunks ++ [slice], seen)

/-- Source: the `while (start < clean.length && chunks.length < MAX_CHUNKS)`
loop of `chunkText`.  The JavaScript loop has no structural termination
measure (the next start is `Math.max(0, end - overlap)`), so the model
carries explicit fuel; `chunkTextL` supplies `clean.length + 1` steps, which
is enough for every configuration where the window advances past the
overlap (in particular for all inputs used in the theorems below). -/
def chunkLoop : Nat → List Char → Nat → Nat → Nat → List (List Char) →
    List (List Char) → List (List Char)
  | 0, _, _, _, _, chunks, _ => chunks
  | fuel + 1, clean, maxLen, overlap, start, chunks, seen =>
    if start < clean.length ∧ chunks.length < MAX_CHUNKS then
      let end0 := min (start + maxLen) clean.length
      let endB :=
        if end0 < clean.length then findSentenceBoundaryL clean start end0
        else end0
      let slice := trimL ((clean.drop start).take (endB - start))
      let cs := dedupPush chunks seen slice
      if endB = clean.length then cs.1
      else chunkLoop fuel clean maxLen overlap (endB - overlap) cs.1 cs.2
    else chunks

/-- Source: `chunkText(text, maxLen, overlap)` (the training-module
segmenter with sentence-boundary search and deduplication). -/
def chunkTextL (text : List Char) (maxLen overlap : Nat) :
    List (List Char) :=
  let clean := normalizeTextL text
  if clean.isEmpty then []
  else chunkLoop (clean.length + 1) clean maxLen overlap 0 [] []

/-- Invariant carried through `chunkLoop`: long chunks have pairwise
distinct dedup keys and every long chunk's key is recorded in `seen`. -/
def DedupInv (chunks seen : List (List Char)) : Prop :=
  ((chunks.filter (fun c => decide (DEDUP_MIN_LENGTH ≤ c.length))).Pairwise
      (fun a b => normalizeForDedupL a ≠ normalizeForDedupL b)) ∧
  (∀ c ∈ chunks, DEDUP_MIN_LENGTH ≤ c.length → normalizeForDedupL c ∈ seen)

theorem dedupPush_inv (chunks seen : List (List Char)) (slice : List Char)
    (h : DedupInv chunks seen) :
    DedupInv (dedupPush chunks seen slice).1 (dedupPush chunks seen slice).2 := by
  obtain ⟨hpw, hseen⟩ := h
  unfold dedupPush
  by_cases he : slice.isEmpty
  · simpa [he] using ⟨hpw, hseen⟩
  · by_cases hlong : DEDUP_MIN_LENGTH ≤ slice.length
    · by_cases hmem : normalizeForDedupL slice ∈ seen
      · simpa [he, hlong, hmem] using ⟨hpw, hseen⟩
      · simp only [he, hlong, hmem, if_neg, if_pos, if_false, Bool.false_eq_true,
          ite_false, ite_true]
        constructor
        · rw [List.filter_append]
          simp only [List.filter_cons, List.filter_nil]
          rw [if_pos (by simpa using hlong)]
          rw [List.pairwise_append]
          refine ⟨hpw, by simp, ?_⟩
          intro a ha b hb
          rw [List.mem_filter] at ha
          simp only [List.mem_singleton] at hb
          subst hb
          have hka := hseen a ha.1 (by simpa using ha.2)
          intro heq
          exact hmem (heq ▸ hka)
        · intro c hc hlc
          rcases List.mem_append.mp hc with h1 | h2
          · exact List.mem_cons_of_mem _ (hseen c h1 hlc)
          · simp only [List.mem_singleton] at h2
            subst h2
            exact List.mem_cons_self _ _
    · simp only [he, hlong, if_neg, if_false, Bool.false_eq_true, ite_false,
        ite_true]
      constructor
      · rw [List.filter_append]
        simp only [List.filter_cons, List.filter_nil]
        rw [if_neg (by simpa using hlong)]
        simpa using hpw
      · intro c hc hlc
        rcases List.mem_append.mp hc with h1 | h2
        · exact hseen c h1 hlc
        · simp only [List.mem_singleton] at h2
          subst h2
          exact absurd hlc hlong

theorem chunkLoop_pairwise (fuel : Nat) :
    ∀ (clean : List Char) (maxLen overlap start : Nat)
      (chunks seen : List (List Char)), DedupInv chunks seen →
      ((chunkLoop fuel clean maxLen overlap start chunks seen).filter
          (fun c => decide (DEDUP_MIN_LENGTH ≤ c.length))).Pairwise
        (fun a b => normalizeForDedupL a ≠ normalizeForDedupL b) := by
  induction fuel with
  | zero => intro clean maxLen overlap start chunks seen h; exact h.1
  | succ fuel ih =>
    intro clean maxLen overlap start chunks seen h
    rw [chunkLoop]
    by_cases hc : start < clean.length ∧ chunks.length < MAX_CHUNKS
    · simp only [if_pos hc]
      have hinv := dedupPush_inv chunks seen
        (trimL ((clean.drop start).take
          ((if min (start + maxLen) clean.length < clean.length then
              findSentenceBoundaryL clean start (min (start + maxLen) clean.length)
            else min (start + maxLen) clean.length) - start))) h
      by_cases hend : (if min (start + maxLen) clean.length < clean.length then
          findSentenceBoundaryL clean start (min (start + maxLen) clean.length)
        else min (start + maxLen) clean.length) = clean.length
      · rw [if_pos hend]
        exact hinv.1
      · rw [if_neg hend]
        exact ih clean maxLen overlap _ _ _ hinv
    · simp only [if_neg hc]
      exact h.1

/-- Claim C4: in a single `chunkText` call, no two returned chunks of length
at least `DEDUP_MIN_LENGTH` (80) have the same normalized
(whitespace-collapsed, trimmed, lowercased) text; chunks shorter than the
minimum bypass deduplication (the second conjunct exhibits a call returning
two identical 50-character chunks). -/
theorem c4_chunk_dedup (text : List Char) (maxLen overlap : Nat) :
    ((chunkTextL text maxLen overlap).filter
        (fun c => decide (DEDUP_MIN_LENGTH ≤ c.length))).Pairwise
      (fun a b => normalizeForDedupL a ≠ normalizeForDedupL b) ∧
    chunkTextL (List.replicate 100 'a') 50 0 =
      [List.replicate 50 'a', List.replicate 50 'a'] := by
  constructor
  · unfold chunkTextL
    by_cases he : (normalizeTextL text).isEmpty
    · simp [he]
    · simp only [he, if_neg, Bool.false_eq_true, ite_false]
      exact chunkLoop_pairwise _ _ _ _ _ [] []
        ⟨List.Pairwise.nil, by simp⟩
  · decide

/-- Two adjacent 90-character sentences separated by a period and a space
(Scenario B of the spec): 90 letters, `". "`, 90 letters. -/
def c8Text : List Char :=
  List.replicate 90 'a' ++ '.' :: ' ' :: List.replicate 90 'b'

/-- A variant with two 120-character sentences, whose boundary lies more
than 100 characters into the first window. -/
def c8TextLong : List Char :=
  List.replicate 120 'a' ++ '.' :: ' ' :: List.replicate 120 'b'

set_option maxRecDepth 40000 in
/-- Claim C8, counterexample: segmenting two adjacent 90-character sentences
with `maxLen = 150` (which lands mid-second-sentence) does NOT cut at the
sentence boundary: the boundary sits 92 characters into the window, within
the first 100 characters, so the segmenter hard-cuts at `maxLen` and the
first chunk is the full 150-character prefix ending mid-word, not the first
sentence. -/
theorem c8_sentence_cut_counterexample :
    ((chunkTextL c8Text 150 20).headD []).length = 150 ∧
    (chunkTextL c8Text 150 20).headD [] ≠
      List.replicate 90 'a' ++ ['.'] := by
  constructor
  · decide
  · decide

set_option maxRecDepth 40000 in
/-- Claim C8, amended: the backward sentence-boundary search is used only
when the found boundary lies more than 100 characters past the window
start.  For two 90-character sentences the boundary is 92 characters in, so
the first chunk is the hard cut at `maxLen = 150` (ending mid-second
sentence); for two 120-character sentences the boundary is 122 characters
in and the first chunk ends exactly at the sentence boundary. -/
theorem c8_boundary_rule_amended :
    (chunkTextL c8Text 150 20).headD [] =
      List.replicate 90 'a' ++ '.' :: ' ' :: List.replicate 58 'b' ∧
    findSentenceBoundaryL c8Text 0 150 = 150 ∧
    (chunkTextL c8TextLong 150 20).headD [] =
      List.replicate 120 'a' ++ ['.'] ∧
    findSentenceBoundaryL c8TextLong 0 150 = 122 := by
  refine ⟨by decide, by decide, by decide, by decide⟩

/-! ### Vector worker (`vector-db.worker.js`)

The worker owns the structured `training_chunks` table, the `vec0` virtual
table `vectors`, and the IndexedDB mirror `chatforge_vectors/chunks`.
Embeddings travel as raw byte buffers; `toVecBlobFromEmbedding` accepts a
buffer only when its byte length is exactly `768 * 4` (each of the
`Float32Array`/`ArrayBuffer`/`Uint8Array`/duck-typed branches of the source
performs this same byte-length check, so the branches are modelled
uniformly as an optional byte list; `none` models a missing or non-buffer
value). -/

/-- A row of the `training_chunks` table
(`id INTEGER PRIMARY KEY AUTOINCREMENT, userId, sourceName, chunkIndex,
text, embedding BLOB, status, UNIQUE(userId, sourceName, chunkIndex)`). -/
structure TRow where
  id : Nat
  userId : String
  sourceName : String
  chunkIndex : Nat
  text : String
  embedding : Option (List UInt8)
  status : String
deriving DecidableEq

/-- A record of the IndexedDB mirror, keyed by
`userId::sourceName::chunkIndex`. -/
structure IdbChunk where
  key : String
  id : Nat
  userId : String
  sourceName : String
  chunkIndex : Nat
  text : String
  embedding : List UInt8
  status : String
deriving DecidableEq

/-- A raw record read back from the IndexedDB cursor during rehydration;
its `embedding` field may hold anything (`none` models a missing or
non-buffer value). -/
structure RawIdbRow where
  id : Nat
  userId : String
  sourceName : String
  chunkIndex : Nat
  text : String
  embedding : Option (List UInt8)
  status : String
deriving DecidableEq

/-- Worker-global state: the vec0 availability flag with its disable
reason, the structured table, the vec0 index contents (rowid/blob pairs),
and the IndexedDB mirror. -/
structure WorkerState where
  vec0Available : Bool
  vec0DisabledReason : Option String
  table : List TRow
  vec : List (Nat × List UInt8)
  idb : List IdbChunk
deriving DecidableEq

/-- Source: `toVecBlobFromEmbedding` — every branch rejects a buffer whose
byte length differs from `768 * 4 = 3072` (returns `null`), and returns the
bytes unchanged otherwise. -/
def toVecBlobFromEmbedding (embedding : Option (List UInt8)) :
    Option (List UInt8) :=
  match embedding with
  | none => none
  | some bytes => if bytes.length = 768 * 4 then some bytes else none

/-- Source: `vec0Disable(phase, reason, error)` — clear the availability
flag and record the reason. -/
def vec0Disable (st : WorkerState) (reason : String) : WorkerState :=
  { st with vec0Available := false, vec0DisabledReason := some reason }

/-- Source: `vec0Upsert` — no-op when vec0 is unavailable; otherwise
delete-then-insert by rowid (the conflict-resolution path; storage-level
exceptions of the insert statements are not modelled here, the disable path
they trigger is modelled by `vec0Disable`). -/
def vec0Upsert (st : WorkerState) (rowId : Nat) (bytes : List UInt8) :
    WorkerState :=
  if st.vec0Available then
    { st with vec := (st.vec.filter (fun p => p.1 ≠ rowId)) ++ [(rowId, bytes)] }
  else st

/-- Source: `UPDATE training_chunks SET status = 'completed' WHERE id = ?`. -/
def updateStatusCompleted (rows : List TRow) (id : Nat) : List TRow :=
  rows.map (fun r => if r.id = id then { r with status := "completed" } else r)

/-- Source: `UPDATE training_chunks SET embedding = ?, status = 'completed'
WHERE id = ?`. -/
def updateEmbedding (rows : List TRow) (id : Nat) (bytes : List UInt8) :
    List TRow :=
  rows.map (fun r =>
    if r.id = id then { r with embedding := some bytes, status := "completed" }
    else r)

/-- Source: `store.put(chunk)` on the IndexedDB object store with
`keyPath: "key"` — replace any record with the same key. -/
def idbPut (idb : List IdbChunk) (c : IdbChunk) : List IdbChunk :=
  (idb.filter (fun x => x.key ≠ c.key)) ++ [c]

/-- Source: the per-row body of the embedding loop in `prepareWithProgress`.
`vectorData` is the slice of the model output for this row (`none` models a
missing entry).  A row whose blob fails validation is marked `completed`
without an embedding and is neither vec0-indexed nor mirrored; a valid blob
is written to the row, upserted into vec0, and mirrored to IndexedDB with
status `completed`. -/
def prepareRowStep (st : WorkerState) (row : TRow)
    (vectorData : Option (List UInt8)) : WorkerState :=
  match toVecBlobFromEmbedding vectorData with
  | none => { st with table := updateStatusCompleted st.table row.id }
  | some bytes =>
    let st1 := { st with table := updateEmbedding st.table row.id bytes }
    let st2 := vec0Upsert st1 row.id bytes
    let mirrored : IdbChunk :=
      ⟨row.userId ++ "::" ++ row.sourceName ++ "::" ++ toString row.chunkIndex,
        row.id, row.userId, row.sourceName, row.chunkIndex, row.text, bytes,
        "completed"⟩
    { st2 with idb := idbPut st2.idb mirrored }

/-- Source: `INSERT OR REPLACE INTO training_chunks (id, ...)` — replace any
row conflicting on the primary key or on the
`UNIQUE(userId, sourceName, chunkIndex)` constraint, then insert. -/
def insertOrReplaceById (rows : List TRow) (r : TRow) : List TRow :=
  (rows.filter (fun x => ¬(x.id = r.id ∨
    (x.userId = r.userId ∧ x.sourceName = r.sourceName ∧
      x.chunkIndex = r.chunkIndex)))) ++ [r]

/-- Source: the per-row body of the cursor loop in `rehydrateFromIdb`.  A
record whose embedding fails the byte-length check is skipped entirely
(`skippedNoEmbedding++`); a valid record is re-inserted into the structured
table and upserted into vec0. -/
def rehydrateRowStep (st : WorkerState) (row : RawIdbRow) : WorkerState :=
  match toVecBlobFromEmbedding row.embedding with
  | none => st
  | some bytes =>
    let newRow : TRow :=
      ⟨row.id, row.userId, row.sourceName, row.chunkIndex, row.text,
        some bytes, row.status⟩
    let st1 := { st with table := insertOrReplaceById st.table newRow }
    vec0Upsert st1 row.id bytes

/-- A row returned by the vec0 k-nearest query (joined back to
`training_chunks`). -/
structure SearchRow where
  id : Nat
  text : String
  sourceName : String
  chunkIndex : Nat
  distance : Int
deriving DecidableEq

/-- Outcome of the vec0 `MATCH` query: the selected rows, or a thrown
storage exception. -/
inductive QueryOutcome where
  | ok (rows : List SearchRow)
  | err (msg : String)
deriving DecidableEq

/-- Source: `searchVectors(userId, vector, topK)`.  Returns the updated
worker state, the posted results, and whether the fast vec0 path was
attempted.  If vec0 is unavailable or the query vector fails the blob check,
post `[]` without touching the index; if the query itself throws, the
exception is caught, `[]` is posted, and — notably — the state is left
unchanged (`vec0Disable` is NOT called on this path). -/
def searchVectors (st : WorkerState) (vector : List Int)
    (outcome : QueryOutcome) : WorkerState × List SearchRow × Bool :=
  if !st.vec0Available then (st, [], false)
  else if vector.length = 768 then
    match outcome with
    | .ok rows => (st, rows, true)
    | .err _ => (st, [], true)
  else (st, [], false)

theorem toVecBlob_some_length (e : Option (List UInt8)) (b : List UInt8)
    (h : toVecBlobFromEmbedding e = some b) : b.length = 768 * 4 ∧ e = some b := by
  cases e with
  | none => exact absurd h (by simp [toVecBlobFromEmbedding])
  | some bytes =>
    have h' : (if bytes.length = 768 * 4 then some bytes else none)
        = some b := h
    by_cases hl : bytes.length = 768 * 4
    · rw [if_pos hl] at h'
      obtain rfl := Option.some.inj h'
      exact ⟨hl, rfl⟩
    · rw [if_neg hl] at h'
      exact absurd h' (by simp)

theorem vec0Upsert_mem (st : WorkerState) (rowId : Nat) (bytes : List UInt8)
    (p : Nat × List UInt8) (hp : p ∈ (vec0Upsert st rowId bytes).vec) :
    p ∈ st.vec ∨ p = (rowId, bytes) := by
  unfold vec0Upsert at hp
  by_cases hv : st.vec0Available
  · simp only [hv, if_pos] at hp
    rcases List.mem_append.mp hp with h1 | h2
    · exact Or.inl (List.mem_filter.mp h1).1
    · exact Or.inr (by simpa using h2)
  · simp only [hv, if_neg, Bool.false_eq_true, ite_false] at hp
    exact Or.inl hp

/-- Claim C2, counterexample: during rehydration, a mirror record whose
embedding has the wrong byte length (here 4 bytes) is skipped entirely —
the worker state is unchanged and, in particular, no row for it is written
to (or marked `completed` in) the structured table, contradicting the
claim that such a row "is nevertheless marked status completed in the
structured table". -/
theorem c2_rehydrate_skip_counterexample :
    rehydrateRowStep ⟨true, none, [], [], []⟩
        ⟨1, "u", "src", 0, "txt", some (List.replicate 4 0), "completed"⟩ =
      ⟨true, none, [], [], []⟩ ∧
    (rehydrateRowStep ⟨true, none, [], [], []⟩
        ⟨1, "u", "src", 0, "txt", some (List.replicate 4 0), "completed"⟩).table
      = [] := by
  constructor
  · decide
  · decide

/-- Claim C2, amended: an embedding is accepted by the blob validator (and
hence into the vec0 index and the IndexedDB mirror, in either phase) only
when its byte length is exactly `768 * 4` bytes, never coerced.  During
ingestion a rejected row is still marked `completed` in the structured
table (visible to the brute-force path); during rehydration a rejected
mirror record is skipped entirely and is NOT written to the structured
table. -/
theorem c2_embedding_length_boundary_amended :
    (∀ (e : Option (List UInt8)) (b : List UInt8),
        toVecBlobFromEmbedding e = some b → b.length = 768 * 4 ∧ e = some b) ∧
    (∀ (st : WorkerState) (row : TRow) (vd : Option (List UInt8))
        (p : Nat × List UInt8), p ∈ (prepareRowStep st row vd).vec →
        p ∈ st.vec ∨ p.2.length = 768 * 4) ∧
    (∀ (st : WorkerState) (row : TRow) (vd : Option (List UInt8))
        (c : IdbChunk), c ∈ (prepareRowStep st row vd).idb →
        c ∈ st.idb ∨ c.embedding.length = 768 * 4) ∧
    (∀ (st : WorkerState) (row : TRow) (vd : Option (List UInt8)),
        toVecBlobFromEmbedding vd = none →
        prepareRowStep st row vd =
          { st with table := updateStatusCompleted st.table row.id }) ∧
    (∀ (st : WorkerState) (row : RawIdbRow),
        toVecBlobFromEmbedding row.embedding = none →
        rehydrateRowStep st row = st) ∧
    (∀ (st : WorkerState) (row : RawIdbRow) (p : Nat × List UInt8),
        p ∈ (rehydrateRowStep st row).vec →
        p ∈ st.vec ∨ p.2.length = 768 * 4) := by
  refine ⟨toVecBlob_some_length, ?_, ?_, ?_, ?_, ?_⟩
  · intro st row vd p hp
    unfold prepareRowStep at hp
    cases hv : toVecBlobFromEmbedding vd with
    | none => rw [hv] at hp; exact Or.inl hp
    | some bytes =>
      rw [hv] at hp
      simp only [] at hp
      rcases vec0Upsert_mem _ _ _ _ hp with h1 | h2
      · exact Or.inl h1
      · subst h2
        exact Or.inr (toVecBlob_some_length vd bytes hv).1
  · intro st row vd c hc
    unfold prepareRowStep at hc
    cases hv : toVecBlobFromEmbedding vd with
    | none => rw [hv] at hc; exact Or.inl hc
    | some bytes =>
      rw [hv] at hc
      simp only [idbPut] at hc
      have hvec : (vec0Upsert { st with table := updateEmbedding st.table row.id bytes }
          row.id bytes).idb = st.idb := by
        unfold vec0Upsert
        by_cases h : st.vec0Available <;> simp [h]
      rw [hvec] at hc
      rcases List.mem_append.mp hc with h1 | h2
      · exact Or.inl (List.mem_filter.mp h1).1
      · simp only [List.mem_singleton] at h2
        subst h2
        exact Or.inr (toVecBlob_some_length vd bytes hv).1
  · intro st row vd h
    unfold prepareRowStep
    rw [h]
  · intro st row h
    unfold rehydrateRowStep
    rw [h]
  · intro st row p hp
    unfold rehydrateRowStep at hp
    cases hv : toVecBlobFromEmbedding row.embedding with
    | none => rw [hv] at hp; exact Or.inl hp
    | some bytes =>
      rw [hv] at hp
      simp only [] at hp
      rcases vec0Upsert_mem _ _ _ _ hp with h1 | h2
      · exact Or.inl h1
      · subst h2
        exact Or.inr (toVecBlob_some_length row.embedding bytes hv).1

theorem c2_embedding_length_boundary_amended_witness :
    prepareRowStep
        ⟨true, none, [⟨1, "u", "s", 0, "txt", none, "pending"⟩], [], []⟩
        ⟨1, "u", "s", 0, "txt", none, "pending"⟩ none =
      { (⟨true, none, [⟨1, "u", "s", 0, "txt", none, "pending"⟩], [], []⟩ :
          WorkerState) with
        table := updateStatusCompleted
          [⟨1, "u", "s", 0, "txt", none, "pending"⟩] 1 } :=
  c2_embedding_length_boundary_amended.2.2.2.1
    ⟨true, none, [⟨1, "u", "s", 0, "txt", none, "pending"⟩], [], []⟩
    ⟨1, "u", "s", 0, "txt", none, "pending"⟩ none (by decide)

set_option maxRecDepth 10000 in
/-- Claim C5, counterexample: with vec0 available and a valid 768-float
query vector, a query-time exception leaves the worker state completely
unchanged (`vec0Available` is still `true` — the catch block posts `[]` but
never calls `vec0Disable`), and the very next search call attempts the fast
index path again and returns its rows, refuting "no subsequent search call
uses the fast index path". -/
theorem c5_query_error_not_disabling_counterexample :
    searchVectors ⟨true, none, [], [], []⟩ (List.replicate 768 0)
        (QueryOutcome.err "disk I-O error") =
      (⟨true, none, [], [], []⟩, [], true) ∧
    (searchVectors ⟨true, none, [], [], []⟩ (List.replicate 768 0)
        (QueryOutcome.ok [⟨1, "t", "s", 0, 0⟩])).2.2 = true ∧
    (searchVectors ⟨true, none, [], [], []⟩ (List.replicate 768 0)
        (QueryOutcome.ok [⟨1, "t", "s", 0, 0⟩])).2.1 = [⟨1, "t", "s", 0, 0⟩] := by
  refine ⟨by decide, by decide, by decide⟩

/-- Claim C5, amended: a query-time exception is caught and yields an empty
result for that call, with the worker state unchanged — vec0 is NOT marked
unavailable on this path (it still attempts the fast path on the next
call); only `vec0Disable` (invoked from the insert, self-test and
table-creation paths) clears the availability flag for the rest of the
process. -/
theorem c5_query_error_amended :
    (∀ (st : WorkerState) (v : List Int) (e : String),
        st.vec0Available = true → v.length = 768 →
        searchVectors st v (QueryOutcome.err e) = (st, [], true)) ∧
    (∀ (st : WorkerState) (reason : String),
        (vec0Disable st reason).vec0Available = false ∧
        (vec0Disable st reason).vec0DisabledReason = some reason) := by
  constructor
  · intro st v e hv hl
    unfold searchVectors
    simp [hv, hl]
  · intro st reason
    exact ⟨rfl, rfl⟩

set_option maxRecDepth 10000 in
theorem c5_query_error_amended_witness :
    searchVectors ⟨true, none, [], [], []⟩ (List.replicate 768 0)
        (QueryOutcome.err "boom") = (⟨true, none, [], [], []⟩, [], true) :=
  c5_query_error_amended.1 ⟨true, none, [], [], []⟩ (List.replicate 768 0)
    "boom" rfl (by decide)

/-! ### Memoised embedder loading (worker `getEmbedder` and the training
module `getEmbedder`)

Both implementations share the shape
`if (!embedderPromise) { embedderPromise = load(...); } return
embedderPromise;` with no code path that resets `embedderPromise`.  The
settled promise is modelled as an optional outcome; a call takes the
outcome the fresh load would produce and returns the new cache, the result
handed to the caller, and whether a load was actually attempted. -/

def getEmbedderStep (cached : Option (Except String Nat))
    (loadOutcome : Except String Nat) :
    Option (Except String Nat) × Except String Nat × Bool :=
  match cached with
  | some r => (some r, r, false)
  | none => (some loadOutcome, loadOutcome, true)

/-- Source: the user-facing error thrown by `processTrainingInput` when
`getEmbedder()` rejects. -/
def trainingModelLoadMessage : String :=
  "Nie udało się pobrać lub uruchomić modelu AI. Spróbuj odświeżyć stronę."

/-- Source: the `try { embedder = await getEmbedder(); } catch (err) {
throw new Error("Nie udało się ...") }` wrapper of `processTrainingInput`. -/
def surfaceLoadError (r : Except String Nat) : Except String Nat :=
  match r with
  | .ok p => .ok p
  | .error _ => .error trainingModelLoadMessage

/-- Claim C6, counterexample: after a failed model load, the rejected
promise stays cached — a second `getEmbedder` call returns the very same
earlier failure and does NOT re-attempt the load (third component `false`),
even though a fresh load would now succeed (`.ok 7`).  This refutes "no
failed state is cached: a subsequent call re-attempts the model load from
scratch". -/
theorem c6_failed_load_cached_counterexample :
    getEmbedderStep (getEmbedderStep none (Except.error "load failed")).1
        (Except.ok 7) =
      (some (Except.error "load failed"), Except.error "load failed", false) := by
  rfl

/-- Claim C6, amended: a model-load failure is surfaced to the training
caller as the user-facing retry error, but the failed promise IS cached:
every later `getEmbedder` call returns the same earlier failure without
re-attempting the load (a load is attempted exactly when nothing is cached
yet) — unlike `getSQLite`, which clears its memo on failure. -/
theorem c6_load_failure_amended :
    (∀ (e : String) (out2 : Except String Nat),
        getEmbedderStep (getEmbedderStep none (Except.error e)).1 out2 =
          (some (Except.error e), Except.error e, false)) ∧
    (∀ e : String,
        surfaceLoadError (Except.error e) =
          Except.error trainingModelLoadMessage) ∧
    (∀ (cached : Option (Except String Nat)) (out : Except String Nat),
        (getEmbedderStep cached out).2.2 = true ↔ cached = none) := by
  refine ⟨fun e out2 => rfl, fun e => rfl, ?_⟩
  intro cached out
  cases cached <;> simp [getEmbedderStep]

/-! ### Memoised SQLite initialisation (`getSQLite`)

Source shape: `if (db) return db; if (dbPromise) return dbPromise;
dbPromise = (async () => { ... })(); try { return await dbPromise; }
catch (e) { dbPromise = null; throw e; }`.  Modelled as a transition system:
a `call` either returns the ready handle, joins the unique pending promise,
or starts a new initialisation; `resolveOk`/`resolveFail` settle the pending
promise (`resolveFail` clears the memo, which is exactly the
`dbPromise = null` in the catch). -/

structure SqliteInitState where
  dbReady : Bool
  pendingInit : Bool
  /-- Number of initialisations started so far (how many times the database
  creation procedure has been launched). -/
  initCount : Nat
deriving DecidableEq

inductive SqliteEv where
  | call
  | resolveOk
  | resolveFail
deriving DecidableEq, BEq

def sqliteStep (st : SqliteInitState) : SqliteEv → SqliteInitState
  | .call =>
    if st.dbReady then st
    else if st.pendingInit then st
    else { st with pendingInit := true, initCount := st.initCount + 1 }
  | .resolveOk =>
    if st.pendingInit then { st with dbReady := true, pendingInit := false }
    else st
  | .resolveFail =>
    if st.pendingInit then { st with pendingInit := false } else st

def sqliteRun (evs : List SqliteEv) : SqliteInitState :=
  evs.foldl sqliteStep ⟨false, false, 0⟩

def sqliteFailCount (evs : List SqliteEv) : Nat :=
  evs.countP (fun e => decide (e = SqliteEv.resolveFail))

/-- Potential of a state: `1` while a promise is pending or the handle is
ready (an initialisation credit has been spent), else `0`. -/
def sqlitePot (st : SqliteInitState) : Nat :=
  if st.pendingInit || st.dbReady then 1 else 0

theorem sqliteStep_pot (st : SqliteInitState) (e : SqliteEv) :
    (sqliteStep st e).initCount + sqlitePot st ≤
      st.initCount + (if e = SqliteEv.resolveFail then 1 else 0) +
        sqlitePot (sqliteStep st e) := by
  cases e <;> simp only [sqliteStep, sqlitePot] <;> split_ifs <;> simp_all

theorem sqliteRun_aux (evs : List SqliteEv) :
    ∀ st : SqliteInitState,
      (evs.foldl sqliteStep st).initCount + sqlitePot st ≤
        st.initCount + sqliteFailCount evs +
          sqlitePot (evs.foldl sqliteStep st) := by
  induction evs with
  | nil => intro st; simp [sqliteFailCount]
  | cons e evs ih =>
    intro st
    have h1 := sqliteStep_pot st e
    have h2 := ih (sqliteStep st e)
    have hc : sqliteFailCount (e :: evs) =
        sqliteFailCount evs + (if e = SqliteEv.resolveFail then 1 else 0) := by
      simp [sqliteFailCount, List.countP_cons]
    simp only [List.foldl_cons, hc]
    omega

/-- Claim C10: structured-database initialisation is single-flight and its
failure is not cached.  In any event trace the number of initialisations
started never exceeds the number of failures plus one (the database
creation procedure is never run twice without an intervening failure); a
`call` while a promise is pending joins it unchanged (every concurrent
caller awaits the same memoized promise); a `call` once ready returns the
handle without re-initialising; a failure clears the memo
(`dbPromise = null`); and the next `call` after that starts a fresh
initialisation. -/
theorem c10_sqlite_single_flight :
    (∀ evs : List SqliteEv,
        (sqliteRun evs).initCount ≤ sqliteFailCount evs + 1) ∧
    (∀ st : SqliteInitState, st.pendingInit = true →
        sqliteStep st SqliteEv.call = st) ∧
    (∀ st : SqliteInitState, st.dbReady = true →
        sqliteStep st SqliteEv.call = st) ∧
    (∀ st : SqliteInitState, st.pendingInit = true →
        sqliteStep st SqliteEv.resolveFail = { st with pendingInit := false }) ∧
    (∀ st : SqliteInitState, st.pendingInit = false → st.dbReady = false →
        sqliteStep st SqliteEv.call =
          { st with pendingInit := true, initCount := st.initCount + 1 }) := by
  refine ⟨?_, ?_, ?_, ?_, ?_⟩
  · intro evs
    have h := sqliteRun_aux evs ⟨false, false, 0⟩
    have ha : (⟨false, false, 0⟩ : SqliteInitState).initCount = 0 := rfl
    have hpot : sqlitePot ⟨false, false, 0⟩ = 0 := rfl
    have hle : sqlitePot (evs.foldl sqliteStep ⟨false, false, 0⟩) ≤ 1 := by
      unfold sqlitePot
      split_ifs <;> omega
    rw [ha, hpot] at h
    unfold sqliteRun
    omega
  · intro st h
    simp [sqliteStep, h]
  · intro st h
    simp [sqliteStep, h]
  · intro st h
    simp [sqliteStep, h]
  · intro st h1 h2
    simp [sqliteStep, h1, h2]

theorem c10_sqlite_single_flight_witness :
    (sqliteRun [SqliteEv.call, SqliteEv.resolveFail, SqliteEv.call,
        SqliteEv.resolveOk, SqliteEv.call]).initCount ≤
      sqliteFailCount [SqliteEv.call, SqliteEv.resolveFail, SqliteEv.call,
        SqliteEv.resolveOk, SqliteEv.call] + 1 ∧
    sqliteStep ⟨false, true, 1⟩ SqliteEv.call = ⟨false, true, 1⟩ :=
  ⟨c10_sqlite_single_flight.1 [SqliteEv.call, SqliteEv.resolveFail,
      SqliteEv.call, SqliteEv.resolveOk, SqliteEv.call],
   c10_sqlite_single_flight.2.1 ⟨false, true, 1⟩ rfl⟩

/-! ### Structured table ingestion (`getSQLite` schema and
`prepareWithProgress`)

`prepareWithProgress` derives `chunks = chunkText(text)` (a pure function of
the input text, so re-ingesting the same text yields the same list), then
optionally clears the user's rows and inserts row `i` with
`INSERT OR IGNORE INTO training_chunks (userId, sourceName, chunkIndex,
text, status) VALUES (?, ?, i, ?, 'pending')`.  The later embedding phase
only runs `UPDATE` statements (modelled by `updateEmbedding` /
`updateStatusCompleted` above), which never change the row count. -/

structure TTable where
  rows : List TRow
  /-- Next AUTOINCREMENT id. -/
  nextId : Nat
deriving DecidableEq

def TTable.empty : TTable := ⟨[], 1⟩

/-- Does the table contain a row with the given unique key? -/
def hasKey (t : TTable) (u s : String) (i : Nat) : Bool :=
  t.rows.any (fun r => r.userId == u && r.sourceName == s && r.chunkIndex == i)

/-- Source: `INSERT OR IGNORE` on the `UNIQUE(userId, sourceName,
chunkIndex)` constraint — a conflicting insert is ignored. -/
def insertOrIgnore (t : TTable) (u s : String) (i : Nat) (text : String) :
    TTable :=
  if hasKey t u s i then t
  else ⟨t.rows ++ [⟨t.nextId, u, s, i, text, none, "pending"⟩], t.nextId + 1⟩

/-- Source: `DELETE FROM training_chunks WHERE userId = ?`. -/
def deleteUser (t : TTable) (u : String) : TTable :=
  ⟨t.rows.filter (fun r => r.userId ≠ u), t.nextId⟩

/-- The `for (let i = 0; i < chunks.length; i++)` insert loop, started at
index `i0`. -/
def insertChunks (t : TTable) (u s : String) : List String → Nat → TTable
  | [], _ => t
  | c :: cs, i0 => insertChunks (insertOrIgnore t u s i0 c) u s cs (i0 + 1)

/-- One ingestion of a source: optional clear of the user's rows followed by
the indexed insert loop over the chunk list. -/
def ingest (t : TTable) (u s : String) (chunks : List String)
    (clearExisting : Bool) : TTable :=
  insertChunks (if clearExisting then deleteUser t u else t) u s chunks 0

/-- Number of structured rows for a given `(userId, sourceName)` pair. -/
def sourceCount (t : TTable) (u s : String) : Nat :=
  (t.rows.filter (fun r => r.userId == u && r.sourceName == s)).length

theorem hasKey_deleteUser (t : TTable) (u s : String) (j : Nat) :
    hasKey (deleteUser t u) u s j = false := by
  unfold hasKey deleteUser
  rw [List.any_eq_false]
  intro r hr
  have hne := (List.mem_filter.mp hr).2
  simp only [ne_eq, decide_not, Bool.not_eq_true', decide_eq_false_iff_not] at hne
  simp [hne]

theorem sourceCount_deleteUser (t : TTable) (u s : String) :
    sourceCount (deleteUser t u) u s = 0 := by
  unfold sourceCount deleteUser
  rw [List.length_eq_zero, List.filter_eq_nil_iff]
  intro r hr
  have hne := (List.mem_filter.mp hr).2
  simp only [ne_eq, decide_not, Bool.not_eq_true', decide_eq_false_iff_not] at hne
  simp [hne]

theorem sourceCount_zero_hasKey (t : TTable) (u s : String)
    (h : sourceCount t u s = 0) (j : Nat) : hasKey t u s j = false := by
  unfold sourceCount at h
  rw [List.length_eq_zero, List.filter_eq_nil_iff] at h
  unfold hasKey
  rw [List.any_eq_false]
  intro r hr
  have hns := h r hr
  intro hcontra
  apply hns
  simp only [Bool.and_eq_true] at hcontra ⊢
  exact hcontra.1

theorem hasKey_insertOrIgnore_mono (t : TTable) (u' s' : String) (i : Nat)
    (c : String) (u s : String) (j : Nat) (h : hasKey t u s j = true) :
    hasKey (insertOrIgnore t u' s' i c) u s j = true := by
  unfold insertOrIgnore
  split_ifs with hk
  · exact h
  · unfold hasKey at h ⊢
    simp [List.any_append, h]

theorem insertChunks_hasKey_mono (cs : List String) :
    ∀ (t : TTable) (u' s' : String) (i0 : Nat) (u s : String) (j : Nat),
      hasKey t u s j = true →
      hasKey (insertChunks t u' s' cs i0) u s j = true := by
  induction cs with
  | nil => intro t u' s' i0 u s j h; exact h
  | cons c cs ih =>
    intro t u' s' i0 u s j h
    exact ih _ u' s' (i0 + 1) u s j
      (hasKey_insertOrIgnore_mono t u' s' i0 c u s j h)

theorem insertOrIgnore_hasKey_self (t : TTable) (u s : String) (i : Nat)
    (c : String) : hasKey (insertOrIgnore t u s i c) u s i = true := by
  unfold insertOrIgnore
  split_ifs with hk
  · exact hk
  · unfold hasKey
    simp [List.any_append]

theorem insertChunks_hasKey (cs : List String) :
    ∀ (t : TTable) (u s : String) (i0 j : Nat), i0 ≤ j →
      j < i0 + cs.length → hasKey (insertChunks t u s cs i0) u s j = true := by
  induction cs with
  | nil => intro t u s i0 j h1 h2; simp at h2; omega
  | cons c cs ih =>
    intro t u s i0 j h1 h2
    by_cases hj : j = i0
    · subst hj
      exact insertChunks_hasKey_mono cs _ u s (j + 1) u s j
        (insertOrIgnore_hasKey_self t u s j c)
    · exact ih (insertOrIgnore t u s i0 c) u s (i0 + 1) j (by omega)
        (by simp at h2 ⊢; omega)

theorem insertChunks_fresh_count (cs : List String) :
    ∀ (t : TTable) (u s : String) (i0 : Nat),
      (∀ j, i0 ≤ j → hasKey t u s j = false) →
      sourceCount (insertChunks t u s cs i0) u s =
        sourceCount t u s + cs.length := by
  induction cs with
  | nil => intro t u s i0 _; simp [insertChunks]
  | cons c cs ih =>
    intro t u s i0 h
    have hk : hasKey t u s i0 = false := h i0 (Nat.le_refl i0)
    have hins : insertOrIgnore t u s i0 c =
        ⟨t.rows ++ [⟨t.nextId, u, s, i0, c, none, "pending"⟩], t.nextId + 1⟩ := by
      unfold insertOrIgnore
      rw [if_neg (by simp [hk])]
    have hcount : sourceCount (insertOrIgnore t u s i0 c) u s =
        sourceCount t u s + 1 := by
      rw [hins]
      unfold sourceCount
      simp [List.filter_append]
    have hfresh : ∀ j, i0 + 1 ≤ j →
        hasKey (insertOrIgnore t u s i0 c) u s j = false := by
      intro j hj
      rw [hins]
      unfold hasKey
      simp only [List.any_append, Bool.or_eq_false_iff]
      constructor
      · exact h j (by omega)
      · simp only [List.any_cons, List.any_nil, Bool.or_false]
        have : i0 ≠ j := by omega
        simp [this]
    have := ih (insertOrIgnore t u s i0 c) u s (i0 + 1) hfresh
    simp only [insertChunks]
    rw [this, hcount]
    simp only [List.length_cons]
    omega

theorem insertChunks_all_present (cs : List String) :
    ∀ (t : TTable) (u s : String) (i0 : Nat),
      (∀ j, i0 ≤ j → j < i0 + cs.length → hasKey t u s j = true) →
      insertChunks t u s cs i0 = t := by
  induction cs with
  | nil => intro t u s i0 _; rfl
  | cons c cs ih =>
    intro t u s i0 h
    have hk : hasKey t u s i0 = true := h i0 (Nat.le_refl i0) (by simp)
    have hins : insertOrIgnore t u s i0 c = t := by
      unfold insertOrIgnore
      rw [if_pos hk]
    simp only [insertChunks, hins]
    exact ih t u s (i0 + 1) (fun j h1 h2 => h j (by omega) (by simp; omega))

/-- Claim C3: starting from a table with no rows for `(userId, sourceName)`
(or with `clearExisting = true`, which first deletes the user's rows),
ingesting the same chunk list — as produced by the pure `chunkText`, so
identical text gives identical chunk indices `0..n-1` — once or twice
leaves exactly `chunks.length` rows for that source: the second ingestion
overwrites/keeps rows via `INSERT OR IGNORE` under the
`UNIQUE(userId, sourceName, chunkIndex)` constraint, never duplicating. -/
theorem c3_ingest_idempotent (t : TTable) (u s : String)
    (chunks : List String) (ce : Bool)
    (h : ce = true ∨ sourceCount t u s = 0) :
    sourceCount (ingest t u s chunks ce) u s = chunks.length ∧
    sourceCount (ingest (ingest t u s chunks ce) u s chunks ce) u s =
      chunks.length := by
  have count_of : ∀ t' : TTable, sourceCount t' u s = 0 →
      sourceCount (insertChunks t' u s chunks 0) u s = chunks.length := by
    intro t' h0
    have := insertChunks_fresh_count chunks t' u s 0
      (fun j _ => sourceCount_zero_hasKey t' u s h0 j)
    omega
  rcases h with hce | h0
  · subst hce
    have h1 : sourceCount (ingest t u s chunks true) u s = chunks.length := by
      unfold ingest
      simp only [if_pos]
      exact count_of (deleteUser t u) (sourceCount_deleteUser t u s)
    refine ⟨h1, ?_⟩
    unfold ingest
    simp only [if_pos]
    exact count_of (deleteUser (ingest t u s chunks true) u)
      (sourceCount_deleteUser _ u s)
  · by_cases hce : ce = true
    · subst hce
      have h1 : sourceCount (ingest t u s chunks true) u s = chunks.length := by
        unfold ingest
        simp only [if_pos]
        exact count_of (deleteUser t u) (sourceCount_deleteUser t u s)
      refine ⟨h1, ?_⟩
      unfold ingest
      simp only [if_pos]
      exact count_of (deleteUser (ingest t u s chunks true) u)
        (sourceCount_deleteUser _ u s)
    · have hf : ce = false := by
        cases ce
        · rfl
        · exact absurd rfl hce
      subst hf
      have h1 : sourceCount (ingest t u s chunks false) u s = chunks.length := by
        unfold ingest
        simp only [Bool.false_eq_true, if_neg, ite_false]
        exact count_of t h0
      refine ⟨h1, ?_⟩
      have hall : insertChunks (ingest t u s chunks false) u s chunks 0 =
          ingest t u s chunks false := by
        apply insertChunks_all_present
        intro j hj1 hj2
        unfold ingest
        simp only [Bool.false_eq_true, if_neg, ite_false]
        exact insertChunks_hasKey chunks t u s 0 j hj1 (by omega)
      unfold ingest
      simp only [Bool.false_eq_true, if_neg, ite_false]
      unfold ingest at hall
      simp only [Bool.false_eq_true, if_neg, ite_false] at hall
      rw [hall]
      unfold ingest at h1
      simp only [Bool.false_eq_true, if_neg, ite_false] at h1
      exact h1

theorem c3_ingest_idempotent_witness :
    sourceCount (ingest TTable.empty "u" "src" ["alpha", "beta"] true)
        "u" "src" = 2 ∧
    sourceCount (ingest (ingest TTable.empty "u" "src" ["alpha", "beta"] true)
        "u" "src" ["alpha", "beta"] true) "u" "src" = 2 :=
  c3_ingest_idempotent TTable.empty "u" "src" ["alpha", "beta"] true
    (Or.inl rfl)

/-! ### Session Orchestrator (`ChatSession.sendMessage`)

The orchestrator persists the user turn, archives evictions (a
worker-side effect that does not touch the memory window), assembles the
recent window, attempts context retrieval — swallowing failures — and
invokes the external generation call, then persists the assistant turn.
The retrieval outcome and the generation collaborator are explicit
parameters; the result records the context with which generation was
invoked. -/

/-- Source: `TOKEN_LIMITS.RESPONSE_BUFFER = 8000`. -/
def RESPONSE_BUFFER : Nat := 8000

structure SendResult where
  state : MemState
  /-- The optional context string the generation call was invoked with. -/
  genContext : Option String
  reply : String
  assistantMessage : ConversationMessage
deriving DecidableEq

/-- Source: `ChatSession.sendMessage(userContent, onStream?)`.  Generation
failures propagate to the caller; retrieval failures are caught
(`console.warn`) and leave the injected context undefined. -/
def sendMessage (st : MemState) (sessionId : String) (useContext : Bool)
    (userContent : String) (retrieval : Except String (Option String))
    (gen : Option String → Except String String) :
    Except String SendResult :=
  let r1 := addMessage st "user" userContent sessionId
  let st1 := r1.1
  let _recent := getRecentMessages st1 (RESPONSE_BUFFER * 4) (some sessionId)
  let context : Option String :=
    if useContext then
      match retrieval with
      | .ok c => c
      | .error _ => none
    else none
  match gen context with
  | .error e => .error e
  | .ok reply =>
    let r2 := addMessage st1 "assistant" reply sessionId
    .ok ⟨r2.1, context, reply, r2.2.1⟩

/-- Claim C7: if context retrieval throws, `sendMessage` still invokes the
external generation call — with no injected context — and, when generation
returns a reply, still persists the assistant turn: the call succeeds, the
generation call was invoked with `none` as context, and the assistant
message carrying the reply is the newest stored turn. -/
theorem c7_retrieval_failure_still_replies (st : MemState)
    (sessionId userContent err reply : String)
    (gen : Option String → Except String String)
    (h : gen none = Except.ok reply) :
    ∃ out : SendResult,
      sendMessage st sessionId true userContent (Except.error err) gen =
        Except.ok out ∧
      out.genContext = none ∧
      out.reply = reply ∧
      out.assistantMessage.role = "assistant" ∧
      out.assistantMessage.content = reply ∧
      out.state.messages.getLast? = some out.assistantMessage := by
  have hsm : sendMessage st sessionId true userContent (Except.error err) gen =
      match gen none with
      | .error e => .error e
      | .ok reply' =>
        .ok ⟨(addMessage (addMessage st "user" userContent sessionId).1
            "assistant" reply' sessionId).1, none, reply',
          (addMessage (addMessage st "user" userContent sessionId).1
            "assistant" reply' sessionId).2.1⟩ := rfl
  rw [h] at hsm
  refine ⟨_, hsm, rfl, rfl, rfl, rfl, ?_⟩
  show ((addMessage (addMessage st "user" userContent sessionId).1
      "assistant" reply sessionId).1.messages).getLast? =
    some (addMessage (addMessage st "user" userContent sessionId).1
      "assistant" reply sessionId).2.1
  simp only [addMessage]
  exact List.getLast?_concat _

theorem c7_retrieval_failure_still_replies_witness :
    ∃ out : SendResult,
      sendMessage MemState.empty "s" true "q" (Except.error "fail")
          (fun _ => Except.ok "ok") = Except.ok out ∧
      out.genContext = none ∧
      out.reply = "ok" := by
  obtain ⟨out, h1, h2, h3, _⟩ :=
    c7_retrieval_failure_still_replies MemState.empty "s" "q" "fail" "ok"
      (fun _ => Except.ok "ok") rfl
  exact ⟨out, h1, h2, h3⟩

end ChatLanding
